import Mathlib

/-!
Verification of the FantasV3 retained-mode UI framework core against its
natural-language specification.  The Python source is shallowly embedded:
stateful methods become pure functions over explicit state, machine
integers become `Int`/`Nat`, Python dicts become association lists with
first-match lookup, and fallible operations return `Except`.
-/

namespace FantasV3

/-! ## Association-list dictionaries

Python `dict` operations used by the source (`get`, `setdefault`-style
insertion, `pop` with default, membership) modelled over association
lists whose keys are unique by construction. -/

/-- `d.get(k, default)` : value of the first entry with key `k`, or `default`. -/
def alistGet {κ ν : Type} [DecidableEq κ] (d : List (κ × ν)) (k : κ) (dflt : ν) : ν :=
  match d with
  | [] => dflt
  | e :: rest => if e.1 = k then e.2 else alistGet rest k dflt

/-- `d[k] = v` : replace the entry with key `k`, or add one at the end. -/
def alistSet {κ ν : Type} [DecidableEq κ] (d : List (κ × ν)) (k : κ) (v : ν) : List (κ × ν) :=
  match d with
  | [] => [(k, v)]
  | e :: rest => if e.1 = k then (k, v) :: rest else e :: alistSet rest k v

/-- `d.pop(k, None)` : drop the first entry with key `k`; no error when absent. -/
def alistPop {κ ν : Type} [DecidableEq κ] (d : List (κ × ν)) (k : κ) : List (κ × ν) :=
  match d with
  | [] => []
  | e :: rest => if e.1 = k then rest else e :: alistPop rest k

/-- `k in d` : does some entry carry key `k`? -/
def alistHas {κ ν : Type} [DecidableEq κ] (d : List (κ × ν)) (k : κ) : Bool :=
  match d with
  | [] => false
  | e :: rest => if e.1 = k then true else alistHas rest k

/-! ## Render command queue and coordinate hit test
(`src/fantas/renderer.py`, class `Renderer`)

A compiled render command is reduced to the two pieces of data
`coordinate_hit_test` consults: its creator (`RenderCommand.creator`,
here the creator's `ui_id`) and its `hit_test` predicate (each command
variant supplies its own point-containment test). -/

/-- One entry of `Renderer.queue`: the creator id and the command's own
`hit_test` point-containment test. -/
structure RenderCmd where
  creator : Nat
  hit_test : Int × Int → Bool

/-- `Renderer.coordinate_hit_test`: walk `reversed(self.queue)` and return the
creator of the first command whose `hit_test(point)` is true, else the
window's root UI. The queue list holds the front (first-drawn) command at
the head, as `deque.append` adds to the back. -/
def coordinateHitTest (queue : List RenderCmd) (rootUi : Nat) (p : Int × Int) : Nat :=
  match queue.reverse.find? (fun rc => rc.hit_test p) with
  | some rc => rc.creator
  | none => rootUi

/-- Spec-side description: the creator of the *last-drawn* hit command. -/
def lastDrawnHitCreator (queue : List RenderCmd) (rootUi : Nat) (p : Int × Int) : Nat :=
  match (queue.filter (fun rc => rc.hit_test p)).getLast? with
  | some rc => rc.creator
  | none => rootUi

theorem find?_eq_head?_filter {α : Type} (q : α → Bool) (l : List α) :
    l.find? q = (l.filter q).head? := by
  induction l with
  | nil => rfl
  | cons a l ih =>
    cases hqa : q a with
    | true =>
      rw [List.find?_cons_of_pos _ hqa, List.filter_cons_of_pos hqa, List.head?_cons]
    | false =>
      rw [List.find?_cons_of_neg _ (by simp [hqa]), List.filter_cons_of_neg (by simp [hqa]), ih]

theorem reverse_find?_eq_getLast?_filter {α : Type} (q : α → Bool) (l : List α) :
    l.reverse.find? q = (l.filter q).getLast? := by
  rw [find?_eq_head?_filter, List.filter_reverse, List.head?_reverse]

/-- C1: For every point P and compiled queue, `coordinate_hit_test(P)` walks the
queue back-to-front and returns the creator of the first command encountered
whose `hit_test(P)` is true — i.e. the creator of the *last-drawn* command
among those that hit P — and returns the window's root UI node when no
command hits P. -/
theorem coordinate_hit_test_last_drawn (queue : List RenderCmd) (rootUi : Nat)
    (p : Int × Int) :
    coordinateHitTest queue rootUi p = lastDrawnHitCreator queue rootUi p := by
  unfold coordinateHitTest lastDrawnHitCreator
  rw [reverse_find?_eq_getLast?_filter]

/-! ## Listener removal (`src/fantas/event_handler.py`,
`EventHandler.remove_event_listener`)

The listener registry maps `(event_type, ui_id, use_capture)` to an ordered
list of listener callbacks (here identified by opaque `Nat` ids).  The
source reads the list with `dict.get(key, [])`, calls `list.remove`, and
turns the `ValueError` of a missing listener into a descriptive failure. -/

/-- Key of the listener registry: `(event_type, ui_id, use_capture)`. -/
abbrev ListenerKey := Nat × Nat × Bool

/-- The listener registry `EventHandler.listener_dict`. -/
abbrev ListenerRegistry := List (ListenerKey × List Nat)

/-- `EventHandler.remove_event_listener`: look up the listener list for the
key, remove the first occurrence of `l` from it (Python `list.remove`), and
fail with a "listener not found" error when it is absent. -/
def removeEventListener (d : ListenerRegistry) (k : ListenerKey) (l : Nat) :
    Except String ListenerRegistry :=
  let ls := alistGet d k []
  if l ∈ ls then
    Except.ok (d.map (fun e => if e.1 = k then (e.1, e.2.erase l) else e))
  else
    Except.error "listener not found"

theorem alistGet_map_erase (d : ListenerRegistry) (k : ListenerKey) (l : Nat) :
    alistGet (d.map (fun e => if e.1 = k then (e.1, e.2.erase l) else e)) k [] =
      (alistGet d k []).erase l := by
  induction d with
  | nil => rfl
  | cons e rest ih =>
    by_cases h : e.1 = k
    · simp [alistGet, h]
    · simp [alistGet, h, ih]

theorem alistGet_map_erase_other (d : ListenerRegistry) (k k' : ListenerKey) (l : Nat)
    (h : k' ≠ k) :
    alistGet (d.map (fun e => if e.1 = k then (e.1, e.2.erase l) else e)) k' [] =
      alistGet d k' [] := by
  induction d with
  | nil => rfl
  | cons e rest ih =>
    by_cases he : e.1 = k
    · simp [alistGet, he, Ne.symm h, ih]
    · by_cases he' : e.1 = k'
      · simp [alistGet, he, he', h]
      · simp [alistGet, he, he', ih]

/-- C8: `remove_event_listener` fails with the "listener not found" error
exactly when the listener is not registered under `(event type, node id,
capture flag)` — it never silently succeeds — and when it is registered it
removes exactly one registration (the first occurrence), leaving every other
key's listener list untouched. -/
theorem remove_event_listener_spec (d : ListenerRegistry) (k : ListenerKey) (l : Nat) :
    (l ∉ alistGet d k [] → removeEventListener d k l = Except.error "listener not found")
    ∧ (l ∈ alistGet d k [] →
        ∃ d', removeEventListener d k l = Except.ok d'
          ∧ alistGet d' k [] = (alistGet d k []).erase l
          ∧ (alistGet d' k []).length + 1 = (alistGet d k []).length
          ∧ ∀ k', k' ≠ k → alistGet d' k' [] = alistGet d k' []) := by
  constructor
  · intro h
    simp [removeEventListener, h]
  · intro h
    refine ⟨d.map (fun e => if e.1 = k then (e.1, e.2.erase l) else e), ?_, ?_, ?_, ?_⟩
    · simp [removeEventListener, h]
    · exact alistGet_map_erase d k l
    · rw [alistGet_map_erase d k l, List.length_erase_of_mem h]
      have := List.length_pos.mpr (List.ne_nil_of_mem h)
      omega
    · intro k' hk'
      exact alistGet_map_erase_other d k k' l hk'

/-- Concrete instance of `remove_event_listener_spec`: under key `(1, 2, capture)`,
removing an unregistered listener `9` errors, and removing listener `5` from
`[5, 6]` succeeds and drops exactly that registration. -/
theorem remove_event_listener_spec_witness :
    removeEventListener [((1, 2, true), [5, 6])] (1, 2, true) 9 =
      Except.error "listener not found"
    ∧ ∃ d', removeEventListener [((1, 2, true), [5, 6])] (1, 2, true) 5 = Except.ok d'
        ∧ alistGet d' (1, 2, true) [] = (alistGet [((1, 2, true), [5, 6])] (1, 2, true) []).erase 5
        ∧ (alistGet d' (1, 2, true) []).length + 1 =
            (alistGet [((1, 2, true), [5, 6])] (1, 2, true) []).length
        ∧ ∀ k', k' ≠ ((1, 2, true) : ListenerKey) →
            alistGet d' k' [] = alistGet [((1, 2, true), [5, 6])] k' [] :=
  ⟨(remove_event_listener_spec [((1, 2, true), [5, 6])] (1, 2, true) 9).1 (by decide),
   (remove_event_listener_spec [((1, 2, true), [5, 6])] (1, 2, true) 5).2 (by decide)⟩

/-! ## Event dispatch (`src/fantas/event_handler.py`, `EventHandler.handle_event`)

A listener callback is reduced to an id and the truthiness of its return
value.  The pass path (`focused_ui.get_pass_path()`, from the missing
`fantas/base/nodebase.py`) is taken as an input list; per the spec it is
"the ancestor chain from that node up to the root", child first.  The
capture phase walks `reversed(event_pass_path)` (root first), the bubble
phase walks it child first; both read the registry with
`dict.get((event.type, ui.ui_id, use_capture), [])` and return as soon as a
callback returns a truthy value. -/

/-- A listener callback: an opaque id plus whether calling it returns a
truthy value. -/
structure Listener where
  lid : Nat
  handled : Bool
deriving DecidableEq

/-- Listener registry with callback values, keyed like `listener_dict`. -/
abbrev DispatchRegistry := List (ListenerKey × List Listener)

/-- Run one node's listener list in registration order; stop after (and
including) the first listener that returns a truthy value.  Returns the
invoked listeners and whether propagation was halted. -/
def runListenerList : List Listener → List Listener × Bool
  | [] => ([], false)
  | l :: rest =>
    if l.handled then ([l], true)
    else
      let r := runListenerList rest
      (l :: r.1, r.2)

/-- Run one phase across the given per-node listener lists, stopping the walk
as soon as one node's run halts. -/
def runPhase : List (List Listener) → List Listener × Bool
  | [] => ([], false)
  | ls :: rest =>
    let r := runListenerList ls
    if r.2 then (r.1, true)
    else
      let r2 := runPhase rest
      (r.1 ++ r2.1, r2.2)

/-- `EventHandler.handle_event`, reduced to the sequence of listener
invocations it performs: capture phase over `reversed(pass path)`, then —
only if no capture listener halted — bubble phase over the pass path. -/
def handleEvent (reg : DispatchRegistry) (etype : Nat) (passPath : List Nat) :
    List Listener :=
  let cap := runPhase (passPath.reverse.map (fun u => alistGet reg (etype, u, true) []))
  if cap.2 then cap.1
  else cap.1 ++ (runPhase (passPath.map (fun u => alistGet reg (etype, u, false) []))).1

/-- The full capture-phase listener sequence: root-first over the pass path,
registration order within each node. -/
def captureSeq (reg : DispatchRegistry) (etype : Nat) (passPath : List Nat) :
    List Listener :=
  (passPath.reverse.map (fun u => alistGet reg (etype, u, true) [])).flatten

/-- The full bubble-phase listener sequence: leaf-first over the pass path. -/
def bubbleSeq (reg : DispatchRegistry) (etype : Nat) (passPath : List Nat) :
    List Listener :=
  (passPath.map (fun u => alistGet reg (etype, u, false) [])).flatten

/-- Spec-side description of a halting run: everything before the first
truthy listener, plus that listener itself. -/
def invokedUntilHandled (ls : List Listener) : List Listener :=
  ls.takeWhile (fun l => !l.handled) ++ (ls.dropWhile (fun l => !l.handled)).take 1

theorem runListenerList_eq (ls : List Listener) :
    runListenerList ls = (invokedUntilHandled ls, ls.any (fun l => l.handled)) := by
  induction ls with
  | nil => rfl
  | cons l rest ih =>
    cases hl : l.handled with
    | true => simp [runListenerList, invokedUntilHandled, hl]
    | false => simp [runListenerList, invokedUntilHandled, hl, ih]

theorem runListenerList_append (xs ys : List Listener) :
    runListenerList (xs ++ ys) =
      (if (runListenerList xs).2
        then (runListenerList xs).1
        else (runListenerList xs).1 ++ (runListenerList ys).1,
       (runListenerList xs).2 || (runListenerList ys).2) := by
  induction xs with
  | nil => simp [runListenerList]
  | cons l rest ih =>
    cases hl : l.handled with
    | true => simp [runListenerList, hl]
    | false => by_cases h2 : (runListenerList rest).2 <;> simp [runListenerList, hl, ih, h2]

theorem runPhase_eq_flatten (lss : List (List Listener)) :
    runPhase lss = runListenerList lss.flatten := by
  induction lss with
  | nil => rfl
  | cons ls rest ih =>
    rw [runPhase, List.flatten_cons, runListenerList_append, ← ih]
    by_cases h : (runPhase rest).2 <;> by_cases h2 : (runListenerList ls).2 <;> simp [h, h2]

theorem runListenerList_no_handled {ls : List Listener}
    (h : ls.any (fun l => l.handled) = false) : runListenerList ls = (ls, false) := by
  rw [runListenerList_eq, h, invokedUntilHandled]
  have hall : ∀ l ∈ ls, l.handled = false := by
    intro l hl
    have := (List.any_eq_false.mp h) l hl
    simpa using this
  rw [List.takeWhile_eq_self_iff.mpr (by intro l hl; simp [hall l hl]),
      List.dropWhile_eq_nil_iff.mpr (by intro l hl; simp [hall l hl])]
  simp

/-- C2: if some capture-phase listener along the pass path returns a truthy
value, `handle_event` performs exactly the root-first, registration-ordered
capture invocations up to and including the first truthy listener — no later
capture listener and no bubble-phase listener (on any node, descendants
included) runs.  If no capture listener is truthy, every capture listener
runs root-first and then the bubble phase runs leaf-first in registration
order, itself stopping at its first truthy listener. -/
theorem handle_event_capture_halts (reg : DispatchRegistry) (etype : Nat)
    (passPath : List Nat) :
    ((captureSeq reg etype passPath).any (fun l => l.handled) = true →
      handleEvent reg etype passPath = invokedUntilHandled (captureSeq reg etype passPath))
    ∧ ((captureSeq reg etype passPath).any (fun l => l.handled) = false →
      handleEvent reg etype passPath =
        captureSeq reg etype passPath ++ invokedUntilHandled (bubbleSeq reg etype passPath)) := by
  constructor
  · intro h
    rw [handleEvent, runPhase_eq_flatten]
    rw [show (passPath.reverse.map (fun u => alistGet reg (etype, u, true) [])).flatten
          = captureSeq reg etype passPath from rfl]
    rw [runListenerList_eq, h]
    simp
  · intro h
    rw [handleEvent, runPhase_eq_flatten]
    rw [show (passPath.reverse.map (fun u => alistGet reg (etype, u, true) [])).flatten
          = captureSeq reg etype passPath from rfl]
    rw [runListenerList_no_handled h]
    simp only [Bool.false_eq_true, if_false]
    rw [runPhase_eq_flatten]
    rw [show (passPath.map (fun u => alistGet reg (etype, u, false) [])).flatten
          = bubbleSeq reg etype passPath from rfl]
    rw [runListenerList_eq]

/-- Concrete instance of `handle_event_capture_halts`: with a truthy capture
listener (id 20) on the middle ancestor of pass path `[3, 2, 1]`, dispatch
invokes the root's capture listener (id 10) and then listener 20, and the
bubble listener (id 30) registered on the leaf never runs. -/
theorem handle_event_capture_halts_witness :
    handleEvent
        [((7, 2, true), [{ lid := 20, handled := true }]),
         ((7, 1, true), [{ lid := 10, handled := false }]),
         ((7, 3, false), [{ lid := 30, handled := false }])] 7 [3, 2, 1] =
      [{ lid := 10, handled := false }, { lid := 20, handled := true }] := by
  have h := (handle_event_capture_halts
    [((7, 2, true), [{ lid := 20, handled := true }]),
     ((7, 1, true), [{ lid := 10, handled := false }]),
     ((7, 3, false), [{ lid := 30, handled := false }])] 7 [3, 2, 1]).1 (by decide)
  rw [h]
  decide

/-! ## Hover transition (`src/fantas/event_handler.py`, `EventHandler.set_hover_ui`)

`set_hover_ui` zips the reversed (root-first) previous and new hover pass
paths, records the last index at which they agree (`lca_index`, initially 0),
and synthesizes a leave event targeted at `last_hover_pass_path[0]` when
`lca_index < len(last_hover_pass_path) - 1`, and an enter event targeted at
`this_hover_pass_path[0]` when `lca_index < len(this_hover_pass_path) - 1`. -/

/-- The `lca_index` loop: walk both root-first chains in lockstep, setting the
accumulator to the current index while the nodes agree and stopping at the
first mismatch (or when either chain ends). -/
def lcaScan : List Nat → List Nat → Nat → Nat → Nat
  | a :: as, b :: bs, i, acc => if a = b then lcaScan as bs (i + 1) i else acc
  | _, _, _, acc => acc

/-- `EventHandler.set_hover_ui`, reduced to the synthesized events: the
optional mouse-leave target and the optional mouse-enter target, given the
previous and new hover pass paths (child-to-root). -/
def setHoverEvents (lastPath thisPath : List Nat) : Option Nat × Option Nat :=
  let lca := lcaScan lastPath.reverse thisPath.reverse 0 0
  (if lca < lastPath.length - 1 then some (lastPath.headD 0) else none,
   if lca < thisPath.length - 1 then some (thisPath.headD 0) else none)

theorem lcaScan_common (c : List Nat) (as bs : List Nat) (i acc : Nat) :
    lcaScan (c ++ as) (c ++ bs) i acc =
      lcaScan as bs (i + c.length) (if c = [] then acc else i + c.length - 1) := by
  induction c generalizing i acc with
  | nil => simp
  | cons a c ih =>
    simp only [List.cons_append, List.length_cons]
    rw [show lcaScan (a :: (c ++ as)) (a :: (c ++ bs)) i acc
          = lcaScan (c ++ as) (c ++ bs) (i + 1) i from by rw [lcaScan, if_pos rfl]]
    rw [ih]
    by_cases hc : c = []
    · subst hc
      simp
    · rw [if_neg hc, if_neg (List.cons_ne_nil a c)]
      have h1 : i + 1 + c.length = i + (c.length + 1) := by omega
      rw [h1]

theorem lcaScan_stop (x y : Nat) (h : x ≠ y) (as bs : List Nat) (i acc : Nat) :
    lcaScan (x :: as) (y :: bs) i acc = acc := by
  rw [lcaScan, if_neg h]

theorem lcaScan_nil_left (bs : List Nat) (i acc : Nat) :
    lcaScan [] bs i acc = acc := by
  cases bs <;> rfl

theorem lcaScan_nil_right (as : List Nat) (i acc : Nat) :
    lcaScan as [] i acc = acc := by
  cases as <;> rfl

theorem lcaScan_pref_left (c w : List Nat) (i acc : Nat) :
    lcaScan c (c ++ w) i acc = if c = [] then acc else i + c.length - 1 := by
  have h := lcaScan_common c [] w i acc
  rw [List.append_nil] at h
  rw [h, lcaScan_nil_left]

theorem lcaScan_pref_right (c w : List Nat) (i acc : Nat) :
    lcaScan (c ++ w) c i acc = if c = [] then acc else i + c.length - 1 := by
  have h := lcaScan_common c w [] i acc
  rw [List.append_nil] at h
  rw [h, lcaScan_nil_right]

/-- C3: moving the hover from node A to a node B whose root-first ancestor
chains share a non-empty common prefix `c` and then diverge (`x ≠ y`) — in
particular siblings under a common proper ancestor — synthesizes exactly one
mouse-leave targeted at A (the head of the previous pass path) and exactly
one mouse-enter targeted at B (the head of the new pass path); no leave event
is synthesized when the previous hover node is an ancestor of the new one
(its root-first chain is a prefix of the new one), and no enter event when
the new hover node is an ancestor of the previous one. -/
theorem set_hover_ui_events_spec :
    (∀ (c u v : List Nat) (x y : Nat), c ≠ [] → x ≠ y →
      setHoverEvents ((c ++ x :: u).reverse) ((c ++ y :: v).reverse) =
        (some (((c ++ x :: u).reverse).headD 0), some (((c ++ y :: v).reverse).headD 0)))
    ∧ (∀ (c w : List Nat), c ≠ [] →
        (setHoverEvents c.reverse ((c ++ w).reverse)).1 = none)
    ∧ (∀ (c w : List Nat), c ≠ [] →
        (setHoverEvents ((c ++ w).reverse) c.reverse).2 = none) := by
  have hlen : ∀ c : List Nat, c ≠ [] → 0 < c.length := fun c hc => List.length_pos.mpr hc
  refine ⟨?_, ?_, ?_⟩
  · intro c u v x y hc hxy
    have hscan : lcaScan (c ++ x :: u) (c ++ y :: v) 0 0 = c.length - 1 := by
      rw [lcaScan_common, if_neg hc, lcaScan_stop x y hxy]
      omega
    have hp := hlen c hc
    simp only [setHoverEvents, List.reverse_reverse, hscan]
    rw [if_pos (by simp only [List.length_reverse, List.length_append, List.length_cons]; omega),
        if_pos (by simp only [List.length_reverse, List.length_append, List.length_cons]; omega)]
  · intro c w hc
    have hscan : lcaScan c (c ++ w) 0 0 = c.length - 1 := by
      rw [lcaScan_pref_left, if_neg hc]
      omega
    simp only [setHoverEvents, List.reverse_reverse, hscan]
    simp
  · intro c w hc
    have hscan : lcaScan (c ++ w) c 0 0 = c.length - 1 := by
      rw [lcaScan_pref_right, if_neg hc]
      omega
    simp only [setHoverEvents, List.reverse_reverse, hscan]
    simp

/-- Concrete instance of `set_hover_ui_events_spec`: with root 1, common
ancestor 2 (depth 1) and sibling subtrees 3→4 and 5→6 (A = 4 and B = 6 at
depth 3), the hover move from A to B synthesizes exactly one leave targeted
at 4 and one enter targeted at 6; a move from an ancestor ([2, 1]-chain) to
its descendant synthesizes no leave, and the converse move no enter. -/
theorem set_hover_ui_events_spec_witness :
    setHoverEvents [4, 3, 2, 1] [6, 5, 2, 1] = (some 4, some 6)
    ∧ (setHoverEvents [2, 1] [3, 2, 1]).1 = none
    ∧ (setHoverEvents [3, 2, 1] [2, 1]).2 = none := by
  have h1 := set_hover_ui_events_spec.1 [1, 2] [4] [6] 3 5 (by decide) (by decide)
  have h2 := set_hover_ui_events_spec.2.1 [1, 2] [3] (by decide)
  have h3 := set_hover_ui_events_spec.2.2 [1, 2] [3] (by decide)
  refine ⟨?_, ?_, ?_⟩
  · simpa using h1
  · simpa using h2
  · simpa using h3

/-! ## Per-child layout configuration recording (`src/fantas/layout.py`,
`RelativeLayout.append`/`insert`, `RatioLayout.append`/`insert`)

The source records a margin/ratio entry only under `if any(margin):` /
`if any(ratio):`.  Python truthiness makes both `None` and `0` falsy, so a
call whose explicit arguments are all `None` or `0` records nothing. -/

/-- Python truthiness of an `int | None` margin argument. -/
def truthyOptInt : Option Int → Bool
  | none => false
  | some v => v != 0

/-- Python truthiness of a `float | None` ratio argument. -/
def truthyOptRat : Option ℚ → Bool
  | none => false
  | some v => v != 0

/-- `RelativeLayout.append`: after appending the child node, record the margin
list `[margin_left, margin_top, margin_right, margin_bottom]` only when
`any(margin)` is true.  Returns the updated `margin_dict`. -/
def relativeLayoutAppend (mdict : List (Nat × List (Option Int))) (uid : Nat)
    (ml mt mr mb : Option Int) : List (Nat × List (Option Int)) :=
  let margin := [ml, mt, mr, mb]
  if margin.any truthyOptInt then alistSet mdict uid margin else mdict

/-- `RelativeLayout.insert`: the margin-recording code is identical to
`append` (the insertion index only affects the children order). -/
def relativeLayoutInsert (mdict : List (Nat × List (Option Int))) (uid : Nat)
    (ml mt mr mb : Option Int) : List (Nat × List (Option Int)) :=
  let margin := [ml, mt, mr, mb]
  if margin.any truthyOptInt then alistSet mdict uid margin else mdict

/-- `RatioLayout.append`: record `[left_ratio, top_ratio, width_ratio,
height_ratio]` only when `any(ratio)` is true. -/
def ratioLayoutAppend (rdict : List (Nat × List (Option ℚ))) (uid : Nat)
    (rl rt rw rh : Option ℚ) : List (Nat × List (Option ℚ)) :=
  let ratio := [rl, rt, rw, rh]
  if ratio.any truthyOptRat then alistSet rdict uid ratio else rdict

/-- `RatioLayout.insert`: the ratio-recording code is identical to `append`. -/
def ratioLayoutInsert (rdict : List (Nat × List (Option ℚ))) (uid : Nat)
    (rl rt rw rh : Option ℚ) : List (Nat × List (Option ℚ)) :=
  let ratio := [rl, rt, rw, rh]
  if ratio.any truthyOptRat then alistSet rdict uid ratio else rdict

theorem truthyOptInt_eq_false {o : Option Int} (h : o = none ∨ o = some 0) :
    truthyOptInt o = false := by
  rcases h with h | h <;> subst h <;> simp [truthyOptInt]

theorem truthyOptRat_eq_false {o : Option ℚ} (h : o = none ∨ o = some 0) :
    truthyOptRat o = false := by
  rcases h with h | h <;> subst h <;> simp [truthyOptRat]

theorem alistGet_of_not_has {κ ν : Type} [DecidableEq κ] {d : List (κ × ν)} {k : κ}
    (h : alistHas d k = false) (dflt : ν) : alistGet d k dflt = dflt := by
  induction d with
  | nil => rfl
  | cons e rest ih =>
    by_cases he : e.1 = k
    · simp [alistHas, he] at h
    · simp [alistHas, he] at h
      simp [alistGet, he, ih h]

/-- C9: a `RelativeLayout.append`/`insert` or `RatioLayout.append`/`insert`
call whose explicit margin/ratio arguments are all `None` or all `0` records
no per-child configuration entry (so an explicit `0` is indistinguishable from
an unspecified argument), and the child is subsequently laid out with the
layout's default margins/ratios (`auto_layout` looks the child id up with the
default as fallback). -/
theorem layout_append_zero_args_not_recorded
    (mdict : List (Nat × List (Option Int))) (rdict : List (Nat × List (Option ℚ)))
    (uid : Nat) (ml mt mr mb : Option Int) (rl rt rw rh : Option ℚ)
    (dm : List (Option Int)) (dr : List (Option ℚ))
    (hm : ∀ o ∈ [ml, mt, mr, mb], o = none ∨ o = some 0)
    (hr : ∀ o ∈ [rl, rt, rw, rh], o = none ∨ o = some 0)
    (hu1 : alistHas mdict uid = false) (hu2 : alistHas rdict uid = false) :
    relativeLayoutAppend mdict uid ml mt mr mb = mdict
    ∧ relativeLayoutInsert mdict uid ml mt mr mb = mdict
    ∧ ratioLayoutAppend rdict uid rl rt rw rh = rdict
    ∧ ratioLayoutInsert rdict uid rl rt rw rh = rdict
    ∧ alistGet (relativeLayoutAppend mdict uid ml mt mr mb) uid dm = dm
    ∧ alistGet (ratioLayoutAppend rdict uid rl rt rw rh) uid dr = dr := by
  have hany : [ml, mt, mr, mb].any truthyOptInt = false := by
    simp only [List.any_eq_false]
    intro o ho
    simp [truthyOptInt_eq_false (hm o ho)]
  have hany' : [rl, rt, rw, rh].any truthyOptRat = false := by
    simp only [List.any_eq_false]
    intro o ho
    simp [truthyOptRat_eq_false (hr o ho)]
  have h1 : relativeLayoutAppend mdict uid ml mt mr mb = mdict := by
    simp [relativeLayoutAppend, hany]
  have h2 : ratioLayoutAppend rdict uid rl rt rw rh = rdict := by
    simp [ratioLayoutAppend, hany']
  refine ⟨h1, by simp [relativeLayoutInsert, hany], h2,
    by simp [ratioLayoutInsert, hany'], ?_, ?_⟩
  · rw [h1]; exact alistGet_of_not_has hu1 dm
  · rw [h2]; exact alistGet_of_not_has hu2 dr

/-- Concrete instance of `layout_append_zero_args_not_recorded`: appending
child `3` with explicit zeros and omitted arguments records nothing, and the
child falls back to the default margins/ratios. -/
theorem layout_append_zero_args_witness :
    relativeLayoutAppend [(7, [some 1, none, none, none])] 3 (some 0) none (some 0) none =
      [(7, [some 1, none, none, none])]
    ∧ relativeLayoutInsert [(7, [some 1, none, none, none])] 3 (some 0) none (some 0) none =
      [(7, [some 1, none, none, none])]
    ∧ ratioLayoutAppend [] 3 none (some 0) none none = []
    ∧ ratioLayoutInsert [] 3 none (some 0) none none = []
    ∧ alistGet (relativeLayoutAppend [(7, [some 1, none, none, none])] 3
        (some 0) none (some 0) none) 3 [none, none, some 4, none] =
      [none, none, some 4, none]
    ∧ alistGet (ratioLayoutAppend [] 3 none (some 0) none none) 3
        [some (1/2), none, none, none] = [some (1/2), none, none, none] :=
  layout_append_zero_args_not_recorded [(7, [some 1, none, none, none])] [] 3
    (some 0) none (some 0) none none (some 0) none none
    [none, none, some 4, none] [some (1/2), none, none, none]
    (by decide) (by decide) (by decide) (by decide)

/-! ## Frame-function registry (`src/fantas/framefunc.py`)

`FrameFuncBase.start` registers the frame function in the process-wide
`framefunc_dict` under its `func_id`; `stop` calls
`framefunc_dict.pop(self.func_id, None)` (no error when absent);
`is_started` tests `func_id in framefunc_dict`.  Registry entries are
modelled as `(func_id, frame-function token)` pairs; `func_id`s are unique
by construction (`generate_unique_id`). -/

/-- `FrameFuncBase.stop`: `framefunc_dict.pop(self.func_id, None)`. -/
def framefuncStop (d : List (Nat × Nat)) (fid : Nat) : List (Nat × Nat) :=
  alistPop d fid

/-- `FrameFuncBase.is_started`: `self.func_id in framefunc_dict`. -/
def framefuncIsStarted (d : List (Nat × Nat)) (fid : Nat) : Bool :=
  alistHas d fid

theorem alistPop_of_not_has {κ ν : Type} [DecidableEq κ] {d : List (κ × ν)} {k : κ}
    (h : alistHas d k = false) : alistPop d k = d := by
  induction d with
  | nil => rfl
  | cons e rest ih =>
    by_cases he : e.1 = k
    · simp [alistHas, he] at h
    · simp [alistHas, he] at h
      simp [alistPop, he, ih h]

theorem mem_alistPop_of_mem {κ ν : Type} [DecidableEq κ] {d : List (κ × ν)} {k : κ}
    {e : κ × ν} (he : e ∈ d) (hne : e.1 ≠ k) : e ∈ alistPop d k := by
  induction d with
  | nil => simp at he
  | cons a rest ih =>
    rcases List.mem_cons.mp he with h | h
    · subst h
      simp [alistPop, hne]
    · by_cases ha : a.1 = k
      · simpa [alistPop, ha] using h
      · simp only [alistPop, if_neg ha, List.mem_cons]
        exact Or.inr (ih h)

theorem mem_of_mem_alistPop {κ ν : Type} [DecidableEq κ] {d : List (κ × ν)} {k : κ}
    {e : κ × ν} (he : e ∈ alistPop d k) : e ∈ d := by
  induction d with
  | nil => simpa [alistPop] using he
  | cons a rest ih =>
    by_cases ha : a.1 = k
    · simp only [alistPop, if_pos ha] at he
      exact List.mem_cons_of_mem a he
    · simp only [alistPop, if_neg ha, List.mem_cons] at he
      rcases he with h | h
      · exact h ▸ List.mem_cons_self a rest
      · exact List.mem_cons_of_mem a (ih h)

theorem length_alistPop_of_has {κ ν : Type} [DecidableEq κ] {d : List (κ × ν)} {k : κ}
    (h : alistHas d k = true) : (alistPop d k).length + 1 = d.length := by
  induction d with
  | nil => simp [alistHas] at h
  | cons e rest ih =>
    by_cases he : e.1 = k
    · simp [alistPop, he]
    · simp [alistHas, he] at h
      simp [alistPop, he, ih h]

theorem alistHas_true_mem_keys {κ ν : Type} [DecidableEq κ] {d : List (κ × ν)} {k : κ}
    (h : alistHas d k = true) : k ∈ d.map Prod.fst := by
  induction d with
  | nil => simp [alistHas] at h
  | cons e rest ih =>
    by_cases he : e.1 = k
    · simp [he]
    · simp only [alistHas, if_neg he] at h
      simp only [List.map_cons, List.mem_cons]
      exact Or.inr (ih h)

theorem alistHas_alistPop_of_nodup {κ ν : Type} [DecidableEq κ] {d : List (κ × ν)} {k : κ}
    (hnd : (d.map Prod.fst).Nodup) : alistHas (alistPop d k) k = false := by
  induction d with
  | nil => rfl
  | cons e rest ih =>
    simp only [List.map_cons, List.nodup_cons] at hnd
    by_cases he : e.1 = k
    · subst he
      rw [show alistPop (e :: rest) e.1 = rest by simp [alistPop]]
      cases hc : alistHas rest e.1 with
      | false => rfl
      | true => exact absurd (alistHas_true_mem_keys hc) hnd.1
    · simp only [alistPop, if_neg he, alistHas, if_neg he]
      exact ih hnd.2

/-- C10: for every frame function, `stop()` on an unregistered function is a
silent no-op that raises no error and leaves the registry unchanged; `stop()`
on a registered function removes exactly its own entry (all other entries
survive and nothing new appears); in both cases `is_started()` is `False`
immediately afterwards (given unique `func_id` keys, as produced by
`generate_unique_id`). -/
theorem framefunc_stop_spec (d : List (Nat × Nat)) (fid : Nat)
    (hnd : (d.map Prod.fst).Nodup) :
    (framefuncIsStarted d fid = false → framefuncStop d fid = d)
    ∧ (framefuncIsStarted d fid = true →
        (∀ e ∈ d, e.1 ≠ fid → e ∈ framefuncStop d fid)
        ∧ (∀ e ∈ framefuncStop d fid, e ∈ d)
        ∧ (framefuncStop d fid).length + 1 = d.length)
    ∧ framefuncIsStarted (framefuncStop d fid) fid = false := by
  refine ⟨fun h => alistPop_of_not_has h, fun h => ⟨?_, ?_, ?_⟩, ?_⟩
  · intro e he hne
    exact mem_alistPop_of_mem he hne
  · intro e he
    exact mem_of_mem_alistPop he
  · exact length_alistPop_of_has h
  · exact alistHas_alistPop_of_nodup hnd

/-- Concrete instance of `framefunc_stop_spec`: stopping unregistered id `5`
leaves the registry `[(1, 10), (2, 20)]` unchanged; stopping registered id `1`
keeps the other entry and shrinks the registry by one; `is_started` is false
afterwards in both cases. -/
theorem framefunc_stop_spec_witness :
    framefuncStop [(1, 10), (2, 20)] 5 = [(1, 10), (2, 20)]
    ∧ ((2, 20) ∈ framefuncStop [(1, 10), (2, 20)] 1
        ∧ (framefuncStop [(1, 10), (2, 20)] 1).length + 1 = 2
        ∧ framefuncIsStarted (framefuncStop [(1, 10), (2, 20)] 1) 1 = false) :=
  ⟨(framefunc_stop_spec [(1, 10), (2, 20)] 5 (by decide)).1 (by decide),
   ((framefunc_stop_spec [(1, 10), (2, 20)] 1 (by decide)).2.1 (by decide)).1
      (2, 20) (by decide) (by decide),
   ((framefunc_stop_spec [(1, 10), (2, 20)] 1 (by decide)).2.1 (by decide)).2.2,
   (framefunc_stop_spec [(1, 10), (2, 20)] 1 (by decide)).2.2⟩

/-! ## Dock layout (`src/fantas/layout.py`, `DockLayout.auto_layout`)

The free rectangle starts as a copy of the parent rectangle moved to the
origin.  Children are visited in insertion order; the loop breaks as soon as
the free rectangle's width or height is exhausted; the `if/elif` chain
handles modes left, top, right, bottom, fill, and skips anything else
(`DockMode.NONE`).  Rect coordinates are pygame-style integers; setting
`topright` moves `left` to `x - width`, setting `bottomleft` moves `top` to
`y - height`. -/

/-- The dock modes of `fantas.DockMode` (declared in the constants module). -/
inductive DockMode where
  | none
  | left
  | top
  | right
  | bottom
  | fill
deriving DecidableEq, Repr

/-- An integer rectangle (pygame `Rect` fields used by the dock layout). -/
structure DRect where
  left : Int
  top : Int
  width : Int
  height : Int
deriving DecidableEq, Repr

/-- A dock child: its dock mode and its rect's pre-existing width/height
(the strip thickness it claims; its position is overwritten). -/
structure DockChild where
  mode : DockMode
  w : Int
  h : Int
deriving DecidableEq, Repr

/-- Half-open integer point containment, matching pygame rect areas. -/
def InRect (r : DRect) (x y : Int) : Prop :=
  r.left ≤ x ∧ x < r.left + r.width ∧ r.top ≤ y ∧ y < r.top + r.height

instance (r : DRect) (x y : Int) : Decidable (InRect r x y) := by
  unfold InRect
  infer_instance

/-- The loop body of `DockLayout.auto_layout`: returns the list of rectangles
assigned to docked children (in order) and the final free rectangle. -/
def dockStep : DRect → List DockChild → List DRect × DRect
  | free, [] => ([], free)
  | free, c :: cs =>
    if free.width ≤ 0 ∨ free.height ≤ 0 then ([], free)
    else if c.mode = DockMode.left then
      let r : DRect := { left := free.left, top := free.top, width := c.w, height := free.height }
      let rest := dockStep { free with left := free.left + c.w, width := free.width - c.w } cs
      (r :: rest.1, rest.2)
    else if c.mode = DockMode.top then
      let r : DRect := { left := free.left, top := free.top, width := free.width, height := c.h }
      let rest := dockStep { free with top := free.top + c.h, height := free.height - c.h } cs
      (r :: rest.1, rest.2)
    else if c.mode = DockMode.right then
      let r : DRect := { left := free.left + free.width - c.w, top := free.top, width := c.w, height := free.height }
      let rest := dockStep { free with width := free.width - c.w } cs
      (r :: rest.1, rest.2)
    else if c.mode = DockMode.bottom then
      let r : DRect := { left := free.left, top := free.top + free.height - c.h, width := free.width, height := c.h }
      let rest := dockStep { free with height := free.height - c.h } cs
      (r :: rest.1, rest.2)
    else if c.mode = DockMode.fill then
      let rest := dockStep { free with width := 0, height := 0 } cs
      (free :: rest.1, rest.2)
    else
      dockStep free cs

/-- `DockLayout.auto_layout`: the free rectangle starts as the parent's
rectangle with `topleft = (0, 0)`. -/
def dockAutoLayout (W H : Int) (children : List DockChild) : List DRect × DRect :=
  dockStep { left := 0, top := 0, width := W, height := H } children

/-- How many of the rectangles contain the point `(x, y)`. -/
def rectCount : List DRect → Int → Int → Nat
  | [], _, _ => 0
  | r :: rs, x, y => (if InRect r x y then 1 else 0) + rectCount rs x y

/-- Total width claimed by left/right-docked children. -/
def sumDockW : List DockChild → Int
  | [] => 0
  | c :: cs =>
    (if c.mode = DockMode.left ∨ c.mode = DockMode.right then c.w else 0) + sumDockW cs

/-- Total height claimed by top/bottom-docked children. -/
def sumDockH : List DockChild → Int
  | [] => 0
  | c :: cs =>
    (if c.mode = DockMode.top ∨ c.mode = DockMode.bottom then c.h else 0) + sumDockH cs

theorem dockStep_stop {free : DRect} (cs : List DockChild)
    (h : free.width ≤ 0 ∨ free.height ≤ 0) : dockStep free cs = ([], free) := by
  cases cs with
  | nil => rfl
  | cons c cs => rw [dockStep, if_pos h]

theorem sumDockW_nonneg {cs : List DockChild} (h : ∀ c ∈ cs, 0 ≤ c.w ∧ 0 ≤ c.h) :
    0 ≤ sumDockW cs := by
  induction cs with
  | nil => simp [sumDockW]
  | cons c cs ih =>
    have hc := h c (List.mem_cons_self c cs)
    have hr := ih (fun d hd => h d (List.mem_cons_of_mem c hd))
    rw [sumDockW]
    split_ifs <;> omega

theorem sumDockH_nonneg {cs : List DockChild} (h : ∀ c ∈ cs, 0 ≤ c.w ∧ 0 ≤ c.h) :
    0 ≤ sumDockH cs := by
  induction cs with
  | nil => simp [sumDockH]
  | cons c cs ih =>
    have hc := h c (List.mem_cons_self c cs)
    have hr := ih (fun d hd => h d (List.mem_cons_of_mem c hd))
    rw [sumDockH]
    split_ifs <;> omega

theorem dock_split_left (free : DRect) (w : Int) (hw : 0 ≤ w) (hle : w ≤ free.width)
    (x y : Int) :
    (if InRect { left := free.left, top := free.top, width := w, height := free.height } x y
      then (1 : Nat) else 0)
    + (if InRect { free with left := free.left + w, width := free.width - w } x y
      then (1 : Nat) else 0)
    = if InRect free x y then 1 else 0 := by
  unfold InRect
  dsimp only
  split_ifs <;> omega

theorem dock_split_top (free : DRect) (h : Int) (hh : 0 ≤ h) (hle : h ≤ free.height)
    (x y : Int) :
    (if InRect { left := free.left, top := free.top, width := free.width, height := h } x y
      then (1 : Nat) else 0)
    + (if InRect { free with top := free.top + h, height := free.height - h } x y
      then (1 : Nat) else 0)
    = if InRect free x y then 1 else 0 := by
  unfold InRect
  dsimp only
  split_ifs <;> omega

theorem dock_split_right (free : DRect) (w : Int) (hw : 0 ≤ w) (hle : w ≤ free.width)
    (x y : Int) :
    (if InRect { left := free.left + free.width - w, top := free.top, width := w, height := free.height } x y
      then (1 : Nat) else 0)
    + (if InRect { free with width := free.width - w } x y then (1 : Nat) else 0)
    = if InRect free x y then 1 else 0 := by
  unfold InRect
  dsimp only
  split_ifs <;> omega

theorem dock_split_bottom (free : DRect) (h : Int) (hh : 0 ≤ h) (hle : h ≤ free.height)
    (x y : Int) :
    (if InRect { left := free.left, top := free.top + free.height - h, width := free.width, height := h } x y
      then (1 : Nat) else 0)
    + (if InRect { free with height := free.height - h } x y then (1 : Nat) else 0)
    = if InRect free x y then 1 else 0 := by
  unfold InRect
  dsimp only
  split_ifs <;> omega

theorem dockStep_count (cs : List DockChild) :
    ∀ (free : DRect) (x y : Int),
    (∀ c ∈ cs, 0 ≤ c.w ∧ 0 ≤ c.h) →
    sumDockW cs ≤ free.width → sumDockH cs ≤ free.height →
    rectCount ((dockStep free cs).2 :: (dockStep free cs).1) x y
      = if InRect free x y then 1 else 0 := by
  induction cs with
  | nil =>
    intro free x y _ _ _
    simp [dockStep, rectCount]
  | cons c cs ih =>
    intro free x y hdim hsw hsh
    have hcw := (hdim c (List.mem_cons_self c cs)).1
    have hch := (hdim c (List.mem_cons_self c cs)).2
    have hdim' : ∀ d ∈ cs, 0 ≤ d.w ∧ 0 ≤ d.h :=
      fun d hd => hdim d (List.mem_cons_of_mem c hd)
    have hswnn := sumDockW_nonneg hdim'
    have hshnn := sumDockH_nonneg hdim'
    by_cases hbr : free.width ≤ 0 ∨ free.height ≤ 0
    · rw [dockStep_stop _ hbr]
      simp [rectCount]
    · rw [sumDockW] at hsw
      rw [sumDockH] at hsh
      cases hmode : c.mode with
      | left =>
        rw [hmode] at hsw hsh
        simp only [ite_true, ite_false, reduceCtorEq, or_false, or_true, true_or,
          false_or, if_true, if_false] at hsw hsh
        rw [show dockStep free (c :: cs)
              = ((({ left := free.left, top := free.top, width := c.w, height := free.height } : DRect)
                  :: (dockStep { free with left := free.left + c.w, width := free.width - c.w } cs).1),
                 (dockStep { free with left := free.left + c.w, width := free.width - c.w } cs).2) from by
          rw [dockStep, if_neg hbr, if_pos hmode]]
        rw [show ∀ (a : DRect) (as : List DRect) (b : DRect),
              rectCount (b :: a :: as) x y
                = (if InRect a x y then 1 else 0) + rectCount (b :: as) x y from by
          intro a as b
          simp [rectCount]
          omega]
        rw [ih { free with left := free.left + c.w, width := free.width - c.w } x y hdim'
          (by dsimp only; omega) (by dsimp only; omega)]
        exact dock_split_left free c.w hcw (by omega) x y
      | top =>
        rw [hmode] at hsw hsh
        simp only [ite_true, ite_false, reduceCtorEq, or_false, or_true, true_or,
          false_or, if_true, if_false] at hsw hsh
        rw [show dockStep free (c :: cs)
              = ((({ left := free.left, top := free.top, width := free.width, height := c.h } : DRect)
                  :: (dockStep { free with top := free.top + c.h, height := free.height - c.h } cs).1),
                 (dockStep { free with top := free.top + c.h, height := free.height - c.h } cs).2) from by
          rw [dockStep, if_neg hbr]
          rw [if_neg (by rw [hmode]; exact fun h => DockMode.noConfusion h), if_pos hmode]]
        rw [show ∀ (a : DRect) (as : List DRect) (b : DRect),
              rectCount (b :: a :: as) x y
                = (if InRect a x y then 1 else 0) + rectCount (b :: as) x y from by
          intro a as b
          simp [rectCount]
          omega]
        rw [ih { free with top := free.top + c.h, height := free.height - c.h } x y hdim'
          (by dsimp only; omega) (by dsimp only; omega)]
        exact dock_split_top free c.h hch (by omega) x y
      | right =>
        rw [hmode] at hsw hsh
        simp only [ite_true, ite_false, reduceCtorEq, or_false, or_true, true_or,
          false_or, if_true, if_false] at hsw hsh
        rw [show dockStep free (c :: cs)
              = ((({ left := free.left + free.width - c.w, top := free.top, width := c.w, height := free.height } : DRect)
                  :: (dockStep { free with width := free.width - c.w } cs).1),
                 (dockStep { free with width := free.width - c.w } cs).2) from by
          rw [dockStep, if_neg hbr]
          rw [if_neg (by rw [hmode]; exact fun h => DockMode.noConfusion h),
              if_neg (by rw [hmode]; exact fun h => DockMode.noConfusion h), if_pos hmode]]
        rw [show ∀ (a : DRect) (as : List DRect) (b : DRect),
              rectCount (b :: a :: as) x y
                = (if InRect a x y then 1 else 0) + rectCount (b :: as) x y from by
          intro a as b
          simp [rectCount]
          omega]
        rw [ih { free with width := free.width - c.w } x y hdim'
          (by dsimp only; omega) (by dsimp only; omega)]
        exact dock_split_right free c.w hcw (by omega) x y
      | bottom =>
        rw [hmode] at hsw hsh
        simp only [ite_true, ite_false, reduceCtorEq, or_false, or_true, true_or,
          false_or, if_true, if_false] at hsw hsh
        rw [show dockStep free (c :: cs)
              = ((({ left := free.left, top := free.top + free.height - c.h, width := free.width, height := c.h } : DRect)
                  :: (dockStep { free with height := free.height - c.h } cs).1),
                 (dockStep { free with height := free.height - c.h } cs).2) from by
          rw [dockStep, if_neg hbr]
          rw [if_neg (by rw [hmode]; exact fun h => DockMode.noConfusion h),
              if_neg (by rw [hmode]; exact fun h => DockMode.noConfusion h),
              if_neg (by rw [hmode]; exact fun h => DockMode.noConfusion h), if_pos hmode]]
        rw [show ∀ (a : DRect) (as : List DRect) (b : DRect),
              rectCount (b :: a :: as) x y
                = (if InRect a x y then 1 else 0) + rectCount (b :: as) x y from by
          intro a as b
          simp [rectCount]
          omega]
        rw [ih { free with height := free.height - c.h } x y hdim'
          (by dsimp only; omega) (by dsimp only; omega)]
        exact dock_split_bottom free c.h hch (by omega) x y
      | fill =>
        rw [show dockStep free (c :: cs)
              = ((free :: (dockStep { free with width := 0, height := 0 } cs).1),
                 (dockStep { free with width := 0, height := 0 } cs).2) from by
          rw [dockStep, if_neg hbr]
          rw [if_neg (by rw [hmode]; exact fun h => DockMode.noConfusion h),
              if_neg (by rw [hmode]; exact fun h => DockMode.noConfusion h),
              if_neg (by rw [hmode]; exact fun h => DockMode.noConfusion h),
              if_neg (by rw [hmode]; exact fun h => DockMode.noConfusion h), if_pos hmode]]
        rw [dockStep_stop cs (by dsimp only; omega)]
        have hempty : ¬ InRect { free with width := 0, height := 0 } x y := by
          unfold InRect
          dsimp only
          omega
        simp [rectCount, hempty]
      | none =>
        rw [hmode] at hsw hsh
        simp only [ite_true, ite_false, reduceCtorEq, or_false, or_true, true_or,
          false_or, if_true, if_false, or_self] at hsw hsh
        rw [show dockStep free (c :: cs) = dockStep free cs from by
          rw [dockStep, if_neg hbr]
          rw [if_neg (by rw [hmode]; exact fun h => DockMode.noConfusion h),
              if_neg (by rw [hmode]; exact fun h => DockMode.noConfusion h),
              if_neg (by rw [hmode]; exact fun h => DockMode.noConfusion h),
              if_neg (by rw [hmode]; exact fun h => DockMode.noConfusion h),
              if_neg (by rw [hmode]; exact fun h => DockMode.noConfusion h)]]
        exact ih free x y hdim' (by omega) (by omega)

/-- C4: for a `DockLayout` whose children have non-negative rect dimensions
and whose cumulative claimed widths (left/right-docked) and heights
(top/bottom-docked) do not exceed the parent rectangle's dimensions, the
rectangles assigned by `auto_layout` to the docked children plus the final
remaining free rectangle tile the parent rectangle exactly: every point of
the parent region lies in exactly one of them and no point outside does
(no gaps, no overlaps).  Children with mode NONE are skipped and contribute
no rectangle, and docking stops once the free width or height is
exhausted — the early break preserves the tiling. -/
theorem dock_layout_tiles (W H : Int) (children : List DockChild)
    (hdim : ∀ c ∈ children, 0 ≤ c.w ∧ 0 ≤ c.h)
    (hW : sumDockW children ≤ W) (hH : sumDockH children ≤ H) :
    ∀ x y : Int,
      rectCount ((dockAutoLayout W H children).2 :: (dockAutoLayout W H children).1) x y
        = if 0 ≤ x ∧ x < W ∧ 0 ≤ y ∧ y < H then 1 else 0 := by
  intro x y
  rw [dockAutoLayout,
    dockStep_count children { left := 0, top := 0, width := W, height := H } x y hdim
      (by dsimp only; omega) (by dsimp only; omega)]
  have hiff : InRect { left := 0, top := 0, width := W, height := H } x y ↔
      (0 ≤ x ∧ x < W ∧ 0 ≤ y ∧ y < H) := by
    unfold InRect
    dsimp only
    constructor <;> intro h <;> omega
  rw [if_congr hiff rfl rfl]

/-- Concrete instance of `dock_layout_tiles`: a 10×10 parent with a
left-docked child of width 3, a top-docked child of height 2 and a fill
child tiles exactly — the interior point (1, 1) is covered exactly once and
the outside point (12, 3) not at all. -/
theorem dock_layout_tiles_witness :
    rectCount
        ((dockAutoLayout 10 10
            [{ mode := DockMode.left, w := 3, h := 2 },
             { mode := DockMode.top, w := 4, h := 2 },
             { mode := DockMode.fill, w := 1, h := 1 }]).2 ::
          (dockAutoLayout 10 10
            [{ mode := DockMode.left, w := 3, h := 2 },
             { mode := DockMode.top, w := 4, h := 2 },
             { mode := DockMode.fill, w := 1, h := 1 }]).1) 1 1 = 1
    ∧ rectCount
        ((dockAutoLayout 10 10
            [{ mode := DockMode.left, w := 3, h := 2 },
             { mode := DockMode.top, w := 4, h := 2 },
             { mode := DockMode.fill, w := 1, h := 1 }]).2 ::
          (dockAutoLayout 10 10
            [{ mode := DockMode.left, w := 3, h := 2 },
             { mode := DockMode.top, w := 4, h := 2 },
             { mode := DockMode.fill, w := 1, h := 1 }]).1) 12 3 = 0 := by
  have h := dock_layout_tiles 10 10
    [{ mode := DockMode.left, w := 3, h := 2 },
     { mode := DockMode.top, w := 4, h := 2 },
     { mode := DockMode.fill, w := 1, h := 1 }]
    (by decide) (by decide) (by decide)
  constructor
  · have h1 := h 1 1
    rw [if_pos (by norm_num)] at h1
    exact h1
  · have h2 := h 12 3
    rw [if_neg (by norm_num)] at h2
    exact h2

/-! ## Grid layout (`src/fantas/layout.py`, `GridLayout.auto_layout`)

Row/column sizes: `0` means auto-fill, strictly between 0 and 1 means a
proportion of the parent dimension, anything else is an absolute pixel
size.  Python float arithmetic and `round` are abstracted: the rounding
function `rnd` is an arbitrary parameter and exact rationals stand in for
floats, since the claimed property must hold regardless of rounding error. -/

/-- Step 1 of `GridLayout.auto_layout`: convert proportional entries
(`0 < e < 1`) to absolute sizes (`total * e`). -/
def gridConvert (total : ℚ) (entries : List ℚ) : List ℚ :=
  entries.map (fun e => if 0 < e ∧ e < 1 then total * e else e)

/-- Step 2: the single auto-fill size — remaining space divided by the number
of `0` entries, or `0` when there is none. -/
def gridAutoSize (total : ℚ) (converted : List ℚ) : ℚ :=
  if 0 < converted.count 0
    then (total - ((converted.filter (fun w => 0 < w)).sum)) / converted.count 0
    else 0

/-- Step 3: replace each `0` entry by the auto-fill size. -/
def gridFillAuto (auto : ℚ) (converted : List ℚ) : List ℚ :=
  converted.map (fun e => if e = 0 then auto else e)

/-- Step 4: accumulate into rounded cumulative edge coordinates
(`rt[i] = round(rt[i] + rt[i-1])`, where the previous edge is already an
integer). -/
def gridAccumulate (rnd : ℚ → Int) (prev : Int) : List ℚ → List Int
  | [] => []
  | v :: rest =>
    let c := rnd (v + (prev : ℚ))
    c :: gridAccumulate rnd c rest

/-- The full edge-coordinate pipeline of `GridLayout.auto_layout` for one
axis: convert proportional entries, fill auto entries, prepend the leading
`0, accumulate with rounding, and finally force the last edge to the total
parent dimension (`rt[-1] = total_height` / `cl[-1] = total_width`). -/
def gridEdges (rnd : ℚ → Int) (total : Int) (entries : List ℚ) : List Int :=
  let converted := gridConvert (total : ℚ) entries
  let sizes := gridFillAuto (gridAutoSize (total : ℚ) converted) converted
  let edges := 0 :: gridAccumulate rnd 0 sizes
  edges.dropLast ++ [total]

/-- Child placement: a child declared at `(row_index, column_index)` gets
`left = cl[column]`, `top = rt[row]`, `width = cl[column+1] - cl[column]`,
`height = rt[row+1] - rt[row]` — one cell, no spanning. -/
def gridPlace (rt cl : List Int) (rowIdx colIdx : Nat) : Int × Int × Int × Int :=
  (cl.getD colIdx 0, rt.getD rowIdx 0,
   cl.getD (colIdx + 1) 0 - cl.getD colIdx 0,
   rt.getD (rowIdx + 1) 0 - rt.getD rowIdx 0)

/-- C5: after every `GridLayout.auto_layout` run, the last cumulative row
edge equals the parent's height exactly and the last cumulative column edge
equals the parent's width exactly — for every rounding function, i.e.
regardless of rounding error in the proportional/auto computations — and a
child declared at `(row, column)` is placed exactly in that single cell: its
left/top sit on the cell's left/top edges and its right/bottom reach exactly
the next edges. -/
theorem grid_layout_edges_exact (rnd : ℚ → Int) (W H : Int) (rows cols : List ℚ) :
    (gridEdges rnd H rows).getLast? = some H
    ∧ (gridEdges rnd W cols).getLast? = some W
    ∧ (∀ ri ci : Nat,
        (gridPlace (gridEdges rnd H rows) (gridEdges rnd W cols) ri ci).1 =
          (gridEdges rnd W cols).getD ci 0
        ∧ (gridPlace (gridEdges rnd H rows) (gridEdges rnd W cols) ri ci).1 +
            (gridPlace (gridEdges rnd H rows) (gridEdges rnd W cols) ri ci).2.2.1 =
          (gridEdges rnd W cols).getD (ci + 1) 0
        ∧ (gridPlace (gridEdges rnd H rows) (gridEdges rnd W cols) ri ci).2.1 =
          (gridEdges rnd H rows).getD ri 0
        ∧ (gridPlace (gridEdges rnd H rows) (gridEdges rnd W cols) ri ci).2.1 +
            (gridPlace (gridEdges rnd H rows) (gridEdges rnd W cols) ri ci).2.2.2 =
          (gridEdges rnd H rows).getD (ri + 1) 0) := by
  refine ⟨?_, ?_, ?_⟩
  · rw [gridEdges, List.getLast?_concat]
  · rw [gridEdges, List.getLast?_concat]
  · intro ri ci
    refine ⟨rfl, ?_, rfl, ?_⟩
    · simp only [gridPlace]
      omega
    · simp only [gridPlace]
      omega

/-! ## Frame animation playback (`src/fantas/ui.py`,
`Animation.create_render_commands` / `Animation.play`)

Playback state: `started`, `cumulative_time` (ns), `current_frame_index`,
`loops`.  Each compile, while playing, adds the elapsed time and advances
the frame index through the precomputed cumulative-duration table
`animation_helper.cumulative_times` (`cumulative_times[i]` is frame `i`'s
start time; the list has one extra trailing entry, the total duration).
Times are integral nanoseconds here (`Int`); the `while` loop gets explicit
fuel, which the concrete traces never exhaust. -/

/-- Playback state of an `Animation`. -/
structure AnimState where
  started : Bool
  cumulative : Int
  idx : Nat
  loops : Int
deriving DecidableEq, Repr

/-- The `while` loop of `Animation.create_render_commands`: advance
`current_frame_index` while the cumulative time has passed the next frame's
start; on passing the last frame either wrap to frame 0 consuming one loop
(`loops != 1`; a `loops` of 0 plays forever) or stop on the last frame. -/
def animAdvance (ct : List Int) (nframes : Nat) : Nat → AnimState → AnimState
  | 0, st => st
  | fuel + 1, st =>
    if st.cumulative ≥ ct.getD (st.idx + 1) 0 then
      let idx1 := st.idx + 1
      if idx1 ≥ nframes - 1 then
        if st.loops ≠ 1 then
          let cum2 := st.cumulative - ct.getLastD 0
          let loops2 := if st.loops ≠ 0 then st.loops - 1 else st.loops
          animAdvance ct nframes fuel { st with idx := 0, cumulative := cum2, loops := loops2 }
        else
          { st with idx := nframes - 1, started := false }
      else
        animAdvance ct nframes fuel { st with idx := idx1 }
    else st

/-- One `create_render_commands` visit: while playing, accumulate the elapsed
wall-clock time since the previous visit and run the frame-advance loop. -/
def animFrameStep (ct : List Int) (nframes fuel : Nat) (st : AnimState)
    (lastTime now : Int) : AnimState :=
  if st.started then
    animAdvance ct nframes fuel { st with cumulative := st.cumulative + (now - lastTime) }
  else st

/-- The claim's duration table: frames A (0–100 ms) and B (100–200 ms), in
nanoseconds — `cumulative_times = [0, 1e8, 2e8]`. -/
def animDemoCT : List Int := [0, 100000000, 200000000]

/-- C6: with frames `[A: 0–100 ms, B: 100–200 ms]` and `loops = 2`, playback
starts on frame 0 (A), is back on frame 0 at 200 ms of cumulative play time
with one loop left, and at 300 ms stops (`started = False`) on the final
frame B — so frame 0 is visited exactly twice before stopping on the final
frame. -/
theorem animation_two_loops_trace :
    (animFrameStep animDemoCT 2 8
        { started := true, cumulative := 0, idx := 0, loops := 2 } 0 200000000 =
      { started := true, cumulative := 0, idx := 0, loops := 1 })
    ∧ (animFrameStep animDemoCT 2 8
        { started := true, cumulative := 0, idx := 0, loops := 1 } 200000000 300000000 =
      { started := false, cumulative := 100000000, idx := 1, loops := 1 }) := by
  decide

/-! ## Render commands as snapshots? (`src/fantas/ui.py`,
`Label.create_render_commands`; `src/fantas/renderer.py`, `LabelRenderCommand`)

Python object references are modelled with explicit stores: scene nodes hold
store addresses for their mutable `rect` and `label_style` objects, and
in-place mutation of such an object is an update of the store at its
address.  `Label.create_render_commands` computes
`rect = fantas.IntRect(self.rect).move(offset)` — a *freshly allocated*
rect object, so the command's rect address is new — but assigns
`self.command.style = self.label_style`, which copies the *reference*: the
command and the node share one style object.  The `LabelStyle` fields are
the ones `LabelRenderCommand.render` reads (the class itself is declared in
the style module, absent from src/). -/

/-- The label style fields consumed by `LabelRenderCommand.render`. -/
structure LabelStyle where
  fgcolor : Nat
  bgcolor : Option Nat
  border_width : Int
  border_radius : Int
  border_radius_top_left : Int
  border_radius_top_right : Int
  border_radius_bottom_left : Int
  border_radius_bottom_right : Int
deriving DecidableEq, Repr

/-- The `fantas.BoxMode` border box modes. -/
inductive BoxMode where
  | inside
  | outside
  | inoutside
deriving DecidableEq, Repr

/-- A `Label` scene node: addresses of its `rect` and `label_style` objects,
plus its box mode. -/
structure LabelNode where
  rectRef : Nat
  styleRef : Nat
  box_mode : BoxMode
deriving DecidableEq, Repr

/-- In-place mutation of the object at `addr`. -/
def storeSet {α : Type} (σ : Nat → α) (addr : Nat) (v : α) : Nat → α :=
  fun a => if a = addr then v else σ a

/-- pygame `Rect.inflate_ip(dx, dy)`: grow around the center. -/
def rectInflate (r : DRect) (dx dy : Int) : DRect :=
  { left := r.left - dx / 2, top := r.top - dy / 2,
    width := r.width + dx, height := r.height + dy }

/-- The queued `LabelRenderCommand` as populated by
`Label.create_render_commands`: a reference to a freshly allocated rect
object and the shared reference to the node's style object. -/
structure LabelCmd where
  rectRef : Nat
  styleRef : Nat
deriving DecidableEq, Repr

/-- `Label.create_render_commands` up to its yield: compute the
border-adjusted rectangle from the node's current rect and style
(`IntRect(self.rect).move(offset)`, inflated for OUTSIDE/INOUTSIDE box
modes), store it in a freshly allocated rect object at address `fresh`, and
set the command's style to the node's style object.  Returns the command and
the updated rect store. -/
def labelCompile (σr : Nat → DRect) (σs : Nat → LabelStyle) (node : LabelNode)
    (offset : Int × Int) (fresh : Nat) : LabelCmd × (Nat → DRect) :=
  let style := σs node.styleRef
  let bw := style.border_width
  let rect0 := σr node.rectRef
  let moved : DRect := { rect0 with left := rect0.left + offset.1, top := rect0.top + offset.2 }
  let rect :=
    if bw > 0 then
      if node.box_mode = BoxMode.outside then rectInflate moved (2 * bw) (2 * bw)
      else if node.box_mode = BoxMode.inoutside then rectInflate moved bw bw
      else moved
    else moved
  ({ rectRef := fresh, styleRef := node.styleRef }, storeSet σr fresh rect)

/-- The drawing data an already-queued label command reads when rendered or
hit-tested: its rect object and its style object, under the current stores. -/
def labelCmdData (σr : Nat → DRect) (σs : Nat → LabelStyle) (cmd : LabelCmd) :
    DRect × LabelStyle :=
  (σr cmd.rectRef, σs cmd.styleRef)

/-- A concrete style for the counterexample. -/
def demoStyle : LabelStyle :=
  { fgcolor := 1, bgcolor := some 2, border_width := 0, border_radius := 0,
    border_radius_top_left := -1, border_radius_top_right := -1,
    border_radius_bottom_left := -1, border_radius_bottom_right := -1 }

/-- Concrete rect store: the node's rect object lives at address 0. -/
def demoRS : Nat → DRect :=
  fun _ => { left := 1, top := 2, width := 3, height := 4 }

/-- Concrete style store: the node's style object lives at address 0. -/
def demoSS : Nat → LabelStyle :=
  fun _ => demoStyle

/-- The concrete label node of the counterexample. -/
def demoNode : LabelNode :=
  { rectRef := 0, styleRef := 0, box_mode := BoxMode.inside }

/-- C7 counterexample: compile the label's render command (fresh rect object
at address 1), then mutate the creating node's label style in place
(`label.label_style.border_width = 9`).  The already-queued command's
drawing data changes — the command shares the node's style object and is
not a snapshot, refuting the claim at this input. -/
theorem label_command_not_snapshot :
    labelCmdData (labelCompile demoRS demoSS demoNode (0, 0) 1).2
        (storeSet demoSS demoNode.styleRef { demoStyle with border_width := 9 })
        (labelCompile demoRS demoSS demoNode (0, 0) 1).1
      ≠ labelCmdData (labelCompile demoRS demoSS demoNode (0, 0) 1).2 demoSS
        (labelCompile demoRS demoSS demoNode (0, 0) 1).1 := by
  decide

/-- C7 amended: a queued label command snapshots its *geometry* — the rect
was copied into a freshly allocated object, so mutating the node's rect
object after the yield leaves the command's rect unchanged — but it shares
the node's *style* object, so any in-place change to the node's label style
after the yield does retroactively change the queued command's drawing
data. -/
theorem label_command_geometry_snapshot_style_shared
    (σr : Nat → DRect) (σs : Nat → LabelStyle) (node : LabelNode)
    (offset : Int × Int) (fresh : Nat) (hfresh : fresh ≠ node.rectRef) :
    (∀ r' : DRect,
      (labelCmdData
          (storeSet (labelCompile σr σs node offset fresh).2 node.rectRef r') σs
          (labelCompile σr σs node offset fresh).1).1
        = (labelCmdData (labelCompile σr σs node offset fresh).2 σs
            (labelCompile σr σs node offset fresh).1).1)
    ∧ (∀ s' : LabelStyle, s' ≠ σs node.styleRef →
        (labelCmdData (labelCompile σr σs node offset fresh).2
            (storeSet σs node.styleRef s')
            (labelCompile σr σs node offset fresh).1).2
          ≠ (labelCmdData (labelCompile σr σs node offset fresh).2 σs
              (labelCompile σr σs node offset fresh).1).2) := by
  constructor
  · intro r'
    simp only [labelCmdData, labelCompile, storeSet]
    rw [if_neg hfresh]
  · intro s' hs
    simp only [labelCmdData, labelCompile, storeSet]
    simpa using hs

/-- Concrete instance of `label_command_geometry_snapshot_style_shared` at
the counterexample's stores: rect mutation is invisible to the queued
command, style mutation is visible. -/
theorem label_command_geometry_snapshot_witness :
    ((labelCmdData
        (storeSet (labelCompile demoRS demoSS demoNode (0, 0) 1).2 demoNode.rectRef
          { left := 5, top := 5, width := 5, height := 5 }) demoSS
        (labelCompile demoRS demoSS demoNode (0, 0) 1).1).1
      = (labelCmdData (labelCompile demoRS demoSS demoNode (0, 0) 1).2 demoSS
          (labelCompile demoRS demoSS demoNode (0, 0) 1).1).1)
    ∧ ((labelCmdData (labelCompile demoRS demoSS demoNode (0, 0) 1).2
          (storeSet demoSS demoNode.styleRef { demoStyle with border_width := 9 })
          (labelCompile demoRS demoSS demoNode (0, 0) 1).1).2
        ≠ (labelCmdData (labelCompile demoRS demoSS demoNode (0, 0) 1).2 demoSS
            (labelCompile demoRS demoSS demoNode (0, 0) 1).1).2) :=
  ⟨(label_command_geometry_snapshot_style_shared demoRS demoSS demoNode (0, 0) 1
      (by decide)).1 { left := 5, top := 5, width := 5, height := 5 },
   (label_command_geometry_snapshot_style_shared demoRS demoSS demoNode (0, 0) 1
      (by decide)).2 { demoStyle with border_width := 9 } (by decide)⟩

end FantasV3
